import Mathlib

/-!
Verification of the hand-rolled HTTP/1.1 subset client in `src/http.py`
(URL parsing, request construction, transport lifecycle, response parsing).

Python strings are modelled as `List Char` (a Python `str` is a sequence of
code points).  Python exceptions are modelled with `Except PyErr`:
`ValueError` (raised by `str.index`, `int()` and the explicit
`raise ValueError("Invalid URL")`) and `IndexError` (raised by out-of-range
list subscripts).  Every definition mirrors the corresponding Python
function line by line.
-/

namespace Esp

/-- A Python string: a sequence of code points. -/
abbrev PyStr := List Char

/-- Python exception kinds raised by the code under verification. -/
inductive PyErr where
  | valueError
  | indexError
deriving DecidableEq, Repr

/-- Decidable equality for `Except` results, so that concrete runs of the
model evaluate inside proofs. -/
instance {ε α : Type} [DecidableEq ε] [DecidableEq α] : DecidableEq (Except ε α) :=
  fun x y =>
    match x, y with
    | .ok a, .ok b =>
        if h : a = b then .isTrue (by rw [h]) else .isFalse (fun e => h (Except.ok.inj e))
    | .error a, .error b =>
        if h : a = b then .isTrue (by rw [h]) else .isFalse (fun e => h (Except.error.inj e))
    | .ok _, .error _ => .isFalse (fun e => Except.noConfusion e)
    | .error _, .ok _ => .isFalse (fun e => Except.noConfusion e)

/-- The CRLF line terminator `"\r\n"`. -/
def crlf : PyStr := ['\r', '\n']

/-- The header/body boundary `"\r\n\r\n"`. -/
def crlf2 : PyStr := ['\r', '\n', '\r', '\n']

/-- Python `sub in s` / `s.index(sub)` search: index of the first occurrence
of `sub` in `s`, or `none` (Python raises `ValueError`). -/
def subIndex (sub : PyStr) : PyStr → Option Nat
  | [] => if sub = [] then some 0 else none
  | c :: rest =>
      if sub.isPrefixOf (c :: rest) then some 0
      else (subIndex sub rest).map (· + 1)

/-- Python slicing `s[a:b]` for `0 ≤ a, b` (empty when `a ≥ b`). -/
def pySlice (s : PyStr) (a b : Nat) : PyStr := (s.drop a).take (b - a)

/-- Recursion core of `splitOnSep`: `k` counts separator characters still
to be skipped after a match (so the list argument shrinks structurally). -/
def splitSkip (sep : PyStr) : Nat → PyStr → List PyStr
  | 0, [] => [[]]
  | 0, c :: rest =>
      if sep ≠ [] ∧ sep.isPrefixOf (c :: rest) then
        [] :: splitSkip sep (sep.length - 1) rest
      else
        match splitSkip sep 0 rest with
        | [] => [[c]]
        | r :: rs => (c :: r) :: rs
  | _ + 1, [] => [[]]
  | k + 1, _ :: rest => splitSkip sep k rest

/-- Python `s.split(sep)` for a non-empty separator `sep`: split on every
non-overlapping occurrence of `sep`, keeping empty pieces
(`"a//b".split("/") = ["a", "", "b"]`, `"".split("/") = [""]`). -/
def splitOnSep (sep : PyStr) (s : PyStr) : List PyStr := splitSkip sep 0 s

/-- Python `s.split(sep, 1)`: split on the first occurrence of `sep` only. -/
def splitOnSep1 (sep : PyStr) : PyStr → List PyStr
  | [] => [[]]
  | c :: rest =>
      if sep ≠ [] ∧ sep.isPrefixOf (c :: rest) then
        [[], rest.drop (sep.length - 1)]
      else
        match splitOnSep1 sep rest with
        | [] => [[c]]
        | r :: rs => (c :: r) :: rs

/-- Python whitespace (the characters `str.split()` splits on, for the
code-point range this client handles). -/
def isPySpace (c : Char) : Bool :=
  c = ' ' ∨ c = '\t' ∨ c = '\n' ∨ c = '\r' ∨ c = Char.ofNat 11 ∨ c = Char.ofNat 12

/-- Python `s.split()` (no argument): split on runs of whitespace, dropping
empty pieces. -/
def splitWs (s : PyStr) : List PyStr :=
  (s.splitOnP isPySpace).filter (· ≠ [])

/-- The value of a string of decimal digit characters, most significant
first. -/
def digitsVal (s : PyStr) : Nat :=
  Nat.ofDigits 10 ((s.map (fun c => c.toNat - 48)).reverse)

/-- Python `int(s)` restricted to the forms the client can meet after
whitespace splitting: an optional sign followed by one or more decimal
digits; anything else raises `ValueError` (`none`). -/
def pyInt : PyStr → Option Int
  | [] => none
  | c :: ds =>
      if c = '-' then
        if ds ≠ [] ∧ ds.all Char.isDigit then some (-(digitsVal ds : Int)) else none
      else if c = '+' then
        if ds ≠ [] ∧ ds.all Char.isDigit then some (digitsVal ds : Int) else none
      else
        if (c :: ds).all Char.isDigit then some (digitsVal (c :: ds) : Int) else none

/-! ## HTTPResponse (`src/http.py`, lines 47–114)

The three lazily computed properties `_status_line`, `status_code`, `text`
and `headers` each operate on the raw response string; each can raise. -/

/-- The parsed status line namedtuple
`status_line(http_version, status_code, reason_phrase)`
(`HTTPResponse._status_line`, lines 62–77): the text before the first CRLF
is whitespace-split, and elements 0, 1, 2 are taken (an `IndexError` when
fewer than three tokens, a `ValueError` when no CRLF exists). -/
def statusLineOf (raw : PyStr) : Except PyErr (PyStr × PyStr × PyStr) :=
  match subIndex crlf raw with
  | none => .error .valueError
  | some i =>
      let toks := splitWs (raw.take i)
      match toks with
      | t0 :: t1 :: t2 :: _ => .ok (t0, t1, t2)
      | _ => .error .indexError

/-- `HTTPResponse.status_code` (lines 79–87): `int(self._status_line.status_code)`. -/
def status_code (raw : PyStr) : Except PyErr Int :=
  match statusLineOf raw with
  | .error e => .error e
  | .ok (_, code, _) =>
      match pyInt code with
      | none => .error .valueError
      | some n => .ok n

/-- `HTTPResponse.text` (lines 89–100): everything after the first
`"\r\n\r\n"`; a `ValueError` when the boundary is absent. -/
def respText (raw : PyStr) : Except PyErr PyStr :=
  match subIndex crlf2 raw with
  | none => .error .valueError
  | some i => .ok (raw.drop (i + 4))

/-- One step of the dict comprehension in `HTTPResponse.headers` (line 114):
each header line is `split(":", 1)` and elements 0 and 1 are taken, raising
`IndexError` when the line holds no `":"`.  The result is kept as the
ordered list of key/value pairs the comprehension produces. -/
def headerPairs : List PyStr → Except PyErr (List (PyStr × PyStr))
  | [] => .ok []
  | line :: rest =>
      match splitOnSep1 [':'] line with
      | k :: v :: _ => (headerPairs rest).map (fun t => (k, v) :: t)
      | _ => .error .indexError

/-- `HTTPResponse.headers` (lines 102–114): the slice between the first CRLF
and the first `"\r\n\r\n"` has every `" "` removed (`.replace(" ", "")`), is
split into lines on CRLF, and each line is split on its first `":"`. -/
def respHeaders (raw : PyStr) : Except PyErr (List (PyStr × PyStr)) :=
  match subIndex crlf raw with
  | none => .error .valueError
  | some hs =>
      match subIndex crlf2 raw with
      | none => .error .valueError
      | some he =>
          let block := (pySlice raw (hs + 2) he).filter (fun c => c ≠ ' ')
          headerPairs (splitOnSep crlf block)

/-! ## URL parsing (`HTTPRequest._parse_url`, lines 182–214) -/

/-- The port component of the parsed netloc tuple: the Python code stores a
string when the URL carries an explicit port (`netloc_parts[1]`) and the
integer `80` otherwise. -/
inductive StrOrNat where
  | str (s : PyStr)
  | nat (n : Nat)
deriving DecidableEq, Repr

/-- The `url` namedtuple `url(scheme, netloc, path)` with the netloc triple
`(netloc_abs, netloc_host, netloc_port)` flattened into fields (in tuple
order, so `netloc[0] = netloc_abs`, `netloc[1] = netloc_host`,
`netloc[2] = netloc_port`). -/
structure ParsedUrl where
  scheme : PyStr
  netloc_abs : PyStr
  netloc_host : PyStr
  netloc_port : StrOrNat
  path : PyStr
deriving DecidableEq, Repr

/-- Line 208: `''.join([f"/{path}" for path in url_parts[3:]])`. -/
def joinPath (segs : List PyStr) : PyStr := (segs.map (fun s => '/' :: s)).flatten

/-- Python `c in s` for a single-character needle. -/
def strContainsChar (s : PyStr) (c : Char) : Bool := s.any (fun d => d = c)

/-- `HTTPRequest._parse_url` (lines 182–214): reject strings not starting
with `"http"` (`ValueError`), split on `"/"`, take `url_parts[0]` with all
`":"` removed as the scheme and `url_parts[2]` as the authority
(an `IndexError` when fewer than three parts), split the authority on `":"`
into host and port when it holds a `":"` (else port `80`), and rejoin
`url_parts[3:]` with a leading `"/"` each as the path. -/
def parse_url (u : PyStr) : Except PyErr ParsedUrl :=
  if (['h', 't', 't', 'p'] : PyStr).isPrefixOf u = false then .error .valueError
  else
    match splitOnSep ['/'] u with
    | p0 :: _ :: p2 :: rest3 =>
        let scheme := p0.filter (fun c => c ≠ ':')
        if strContainsChar p2 ':' then
          match splitOnSep [':'] p2 with
          | h :: p :: _ => .ok ⟨scheme, p2, h, .str p, joinPath rest3⟩
          | _ => .error .indexError
        else
          .ok ⟨scheme, p2, p2, .nat 80, joinPath rest3⟩
    | _ => .error .indexError

/-! ## JSON serialization (`json.dumps` with default arguments)

`HTTPRequest._parse_http_json` (lines 216–223) calls `dumps(self.json)`
with default arguments: item separator `", "`, key separator `": "` and
`ensure_ascii=True`, so every code point outside printable ASCII is written
as a `\uXXXX` escape (with surrogate pairs above the BMP).  The JSON
payloads this client builds are flat objects, so values are modelled as
JSON scalars. -/

/-- A JSON scalar value. -/
inductive JVal where
  | jnull
  | jbool (b : Bool)
  | jint (n : Int)
  | jstr (s : PyStr)
deriving DecidableEq, Repr

/-- Recursion core of `natRepr` (fuel-based so it stays structurally
recursive). -/
def natReprAux : Nat → Nat → PyStr
  | 0, _ => []
  | fuel + 1, n =>
      if n < 10 then [Char.ofNat (48 + n)]
      else natReprAux fuel (n / 10) ++ [Char.ofNat (48 + n % 10)]

/-- Decimal digits of a natural number, as Python `str(n)` renders it. -/
def natRepr (n : Nat) : PyStr := natReprAux (n + 1) n

/-- Python `str(n)` for an integer. -/
def intRepr (n : Int) : PyStr :=
  if n < 0 then '-' :: natRepr (-n).toNat else natRepr n.toNat

/-- One lowercase hexadecimal digit. -/
def hexDig (n : Nat) : Char :=
  if n < 10 then Char.ofNat (48 + n) else Char.ofNat (87 + n)

/-- A `\uXXXX` escape for a code unit below `0x10000`. -/
def uEsc (n : Nat) : PyStr :=
  '\\' :: 'u' :: [hexDig (n / 4096 % 16), hexDig (n / 256 % 16), hexDig (n / 16 % 16), hexDig (n % 16)]

/-- `json.dumps` escaping of one character under `ensure_ascii=True`:
`"` and `\` are backslash-escaped, the common control characters use their
short escapes, every other code point outside `0x20`–`0x7e` becomes
`\uXXXX` (a surrogate pair above `0xFFFF`), and printable ASCII passes
through. -/
def escChar (c : Char) : PyStr :=
  if c = '"' then ['\\', '"']
  else if c = '\\' then ['\\', '\\']
  else if c = '\n' then ['\\', 'n']
  else if c = '\r' then ['\\', 'r']
  else if c = '\t' then ['\\', 't']
  else if c = Char.ofNat 8 then ['\\', 'b']
  else if c = Char.ofNat 12 then ['\\', 'f']
  else if 32 ≤ c.toNat ∧ c.toNat ≤ 126 then [c]
  else if c.toNat < 65536 then uEsc c.toNat
  else uEsc (55296 + (c.toNat - 65536) / 1024) ++ uEsc (56320 + (c.toNat - 65536) % 1024)

/-- A JSON string literal: `"` + escaped characters + `"`. -/
def encStr (s : PyStr) : PyStr := '"' :: (s.map escChar).flatten ++ ['"']

/-- Serialization of one JSON scalar. -/
def encVal : JVal → PyStr
  | .jnull => ['n', 'u', 'l', 'l']
  | .jbool true => ['t', 'r', 'u', 'e']
  | .jbool false => ['f', 'a', 'l', 's', 'e']
  | .jint n => intRepr n
  | .jstr s => encStr s

/-- The members of a JSON object joined with the default separators
`", "` between items and `": "` between key and value. -/
def joinItems : List (PyStr × JVal) → PyStr
  | [] => []
  | [(k, v)] => encStr k ++ ':' :: ' ' :: encVal v
  | (k, v) :: rest => encStr k ++ ':' :: ' ' :: encVal v ++ ',' :: ' ' :: joinItems rest

/-- `json.dumps` of a flat JSON object with default arguments. -/
def dumps (js : List (PyStr × JVal)) : PyStr := '{' :: joinItems js ++ ['}']

/-! ## Request construction (`HTTPRequest`, lines 117–259) -/

/-- `HTTP_VERSION` (line 42). -/
def HTTP_VERSION : PyStr := ['H', 'T', 'T', 'P', '/', '1', '.', '1']

/-- `HTTP_POST` (line 43). -/
def HTTP_POST : PyStr := ['P', 'O', 'S', 'T']

/-- `HTTP_GET` (line 44). -/
def HTTP_GET : PyStr := ['G', 'E', 'T']

/-- The request parameters stored by `HTTPRequest.__init__` (lines 132–138):
method, URL, form data, JSON data and caller headers, with the mappings as
ordered association lists (Python dict iteration order is insertion
order). -/
structure Req where
  method : PyStr
  url : PyStr
  data : List (PyStr × PyStr)
  json : List (PyStr × JVal)
  headers : List (PyStr × PyStr)
deriving Repr

/-- Line 140: `self.json_body = True if self.json else False`
(dict truthiness). -/
def json_body (r : Req) : Bool := r.json ≠ []

/-- `HTTPRequest._parse_http_json` (lines 216–223): `dumps(self.json)`. -/
def parse_http_json (r : Req) : PyStr := dumps r.json

/-- `HTTPRequest._parse_http_data` (lines 225–239): the pairs rendered as
`key=value`, with `&` appended after every pair except the last. -/
def parse_http_data_list : List (PyStr × PyStr) → PyStr
  | [] => []
  | [(k, v)] => k ++ '=' :: v
  | (k, v) :: rest => k ++ '=' :: v ++ '&' :: parse_http_data_list rest

/-- `HTTPRequest._parse_http_data` applied to the request's form data. -/
def parse_http_data (r : Req) : PyStr := parse_http_data_list r.data

/-- `HTTPRequest.content_length` (lines 150–160): `len` of the form-encoded
text when `json` is false, else `len` of the serialized JSON.  Python `len`
on `str` counts code points. -/
def content_length (r : Req) (jsonFlag : Bool) : Nat :=
  if jsonFlag = false then (parse_http_data r).length else (parse_http_json r).length

/-- The caller-supplied headers rendered as `f"{key}: {value}\r\n"` in
iteration order (lines 177–178). -/
def joinHeaders : List (PyStr × PyStr) → PyStr
  | [] => []
  | (k, v) :: rest => k ++ ':' :: ' ' :: v ++ crlf ++ joinHeaders rest

/-- `HTTPRequest._parse_http_headers` (lines 162–180): a `Host` header whose
value is `self._parse_url.netloc[0]` — the absolute authority
`netloc_abs`, not the bare host — then for POST a `Content-Length` header
from `content_length(self.json_body)`, then the caller headers. -/
def parse_http_headers (r : Req) : Except PyErr PyStr :=
  match parse_url r.url with
  | .error e => .error e
  | .ok pu =>
      let h0 := ['H', 'o', 's', 't', ':', ' '] ++ pu.netloc_abs ++ crlf
      let h1 :=
        if r.method = HTTP_POST then
          h0 ++ ['C', 'o', 'n', 't', 'e', 'n', 't', '-', 'L', 'e', 'n', 'g', 't', 'h', ':', ' ']
             ++ natRepr (content_length r (json_body r)) ++ crlf
        else h0
      .ok (h1 ++ joinHeaders r.headers)

/-- `HTTPRequest.construct_http_request` (lines 241–259): request line with
the parsed path (a `?query` from the form data on GET when form data is
present and no JSON was given), the header block, a blank line, and for
non-GET methods the body — serialized JSON when `self.json` is truthy,
otherwise the form-encoded text. -/
def construct_http_request (r : Req) : Except PyErr PyStr :=
  match parse_url r.url with
  | .error e => .error e
  | .ok pu =>
      match parse_http_headers r with
      | .error e => .error e
      | .ok hh =>
          let body := if r.json = [] then parse_http_data r else parse_http_json r
          if r.method = HTTP_GET then
            .ok (r.method ++ ' ' :: pu.path
                  ++ (if r.data ≠ [] ∧ r.json = [] then '?' :: body else [])
                  ++ ' ' :: HTTP_VERSION ++ crlf ++ hh ++ crlf)
          else
            .ok (r.method ++ ' ' :: pu.path ++ ' ' :: HTTP_VERSION ++ crlf ++ hh ++ crlf ++ body)

/-! ## Call lifecycle (`get`/`post`, lines 261–312)

`get` and `post` run `HTTPRequest.__init__` (socket creation at line 142,
URL parse at lines 145–146, `connect` at line 148), then
`send_http_request` (construct + `socket.send`), then `get_http_response`
(the `recv` loop, `socket.close()` at line 285, then `.decode("utf-8")` at
line 287).  The only `close` call in the module is line 285.  Transport
outcomes (connect, send, recv, decode) are external events, supplied here
as oracle booleans; a `False` means that step raises. -/

/-- The terminal state of one `get`/`post` call. -/
inductive CallExit where
  | success
  | urlValueError
  | urlIndexError
  | connectFail
  | sendFail
  | recvFail
  | decodeFail
deriving DecidableEq, Repr

/-- One `get`/`post` call: the terminal state paired with the number of
times `socket.close()` ran.  An exception anywhere before line 285
propagates without any `close`; a decode failure at line 287 happens after
the single `close`. -/
def runCall (r : Req) (connectOk sendOk recvOk decodeOk : Bool) : CallExit × Nat :=
  match parse_url r.url with
  | .error .valueError => (.urlValueError, 0)
  | .error .indexError => (.urlIndexError, 0)
  | .ok _ =>
      if connectOk = false then (.connectFail, 0)
      else if sendOk = false then (.sendFail, 0)
      else if recvOk = false then (.recvFail, 0)
      else if decodeOk = false then (.decodeFail, 1)
      else (.success, 1)

/-! ## Derived definitions used in the statements -/

/-- CRLF-join of a list of header lines, as they appear on the wire. -/
def interJoin : List PyStr → PyStr
  | [] => []
  | [l] => l
  | l :: rest => l ++ '\r' :: '\n' :: interJoin rest

/-- One header line `f"{key}: {value}"` as the response parser sees it
after the key/value pair crossed the wire (the emitter writes
`key ++ ": " ++ value`, so the line is `key ++ ":" ++ (" " ++ value)`;
here the line is taken in the general form `key ++ ":" ++ rest`). -/
def mkHeaderLine (kv : PyStr × PyStr) : PyStr := kv.1 ++ ':' :: kv.2

/-- The `[:port]` part of an authority: empty when no explicit port. -/
def portSuffix : Option PyStr → PyStr
  | none => []
  | some p => ':' :: p

/-- The port component `_parse_url` stores: the port substring when the
authority carries one, the integer `80` otherwise. -/
def portParsed : Option PyStr → StrOrNat
  | none => .nat 80
  | some p => .str p

/-- An absolute URL `http://host[:port]/seg1/seg2/...` assembled from its
components. -/
def mkUrl (host : PyStr) (pd : Option PyStr) (segs : List PyStr) : PyStr :=
  ['h', 't', 't', 'p', ':', '/', '/'] ++ host ++ portSuffix pd ++ joinPath segs

/-- `int(dest_port)` as evaluated in `HTTPRequest.__init__` (line 148):
Python `int` applied to the stored port — parsing the string, or the
integer `80` unchanged. -/
def intOfPort : StrOrNat → Option Int
  | .str s => pyInt s
  | .nat n => some (n : Int)

/-- UTF-8 byte length of a string: the sum of the UTF-8 encoding sizes of
its code points. -/
def utf8Len (s : PyStr) : Nat := (s.map Char.utf8Size).sum

/-- Whether `_parse_url` succeeds on a URL string. -/
def parseOk (u : PyStr) : Bool :=
  match parse_url u with
  | .ok _ => true
  | .error _ => false

/-- The effective port of a URL built with an optional explicit port. -/
def portValue : Option Nat → Nat
  | none => 80
  | some n => n

/-- The URL `http://example.com` — no trailing slash, empty segment list. -/
def bareUrl : PyStr := "http://example.com".toList

/-- The URL `httpx://h/p`, whose scheme token is not a supported scheme. -/
def httpxUrl : PyStr := "httpx://h/p".toList

/-- A GET request to `http://h/p` as `get` builds it. -/
def getReq : Req := ⟨HTTP_GET, "http://h/p".toList, [], [], []⟩

/-- A GET request to `http://h:9000/p`, a URL with an explicit port. -/
def portReq : Req := ⟨HTTP_GET, "http://h:9000/p".toList, [], [], []⟩

/-- A response buffer whose status line has no reason phrase. -/
def shortStatusBuf : PyStr := "HTTP/1.1 200\r\n\r\nx".toList

/-- A response buffer that carries no `"\r\n\r\n"` boundary. -/
def noBoundaryBuf : PyStr := "HTTP/1.1 200 OK".toList

/-- A response whose only header value contains a tab. -/
def tabBuf : PyStr := "HTTP/1.1 200 OK\r\nA: b\tc\r\n\r\n".toList

/-! ## Lemmas about the string primitives -/

theorem isPrefixOf_cons_cons (x a : Char) (xs rest : PyStr) :
    (x :: xs).isPrefixOf (a :: rest) = ((x == a) && xs.isPrefixOf rest) := by
  simp [List.isPrefixOf]

theorem splitOnSep_single_nomem {c : Char} {s : PyStr} (h : c ∉ s) :
    splitOnSep [c] s = [s] := by
  induction s with
  | nil => rfl
  | cons d rest ih =>
      simp only [List.mem_cons, not_or] at h
      have hdc : (c == d) = false := by simp [beq_eq_false_iff_ne, Ne, h.1]
      rw [splitOnSep, splitSkip,
        show splitSkip [c] 0 rest = splitOnSep [c] rest from rfl, ih h.2]
      simp [isPrefixOf_cons_cons, hdc]

theorem splitOnSep_single_step {c : Char} {s : PyStr} (h : c ∉ s) (t : PyStr) :
    splitOnSep [c] (s ++ c :: t) = s :: splitOnSep [c] t := by
  induction s with
  | nil =>
      rw [List.nil_append, splitOnSep, splitSkip,
        if_pos ⟨by simp, by simp [List.isPrefixOf]⟩]
      rfl
  | cons d rest ih =>
      simp only [List.mem_cons, not_or] at h
      have hdc : (c == d) = false := by simp [beq_eq_false_iff_ne, Ne, h.1]
      rw [List.cons_append, splitOnSep, splitSkip,
        show splitSkip [c] 0 (rest ++ c :: t) = splitOnSep [c] (rest ++ c :: t) from rfl,
        ih h.2]
      simp [isPrefixOf_cons_cons, hdc]

theorem splitOnSep1_single_nomem {c : Char} {s : PyStr} (h : c ∉ s) :
    splitOnSep1 [c] s = [s] := by
  induction s with
  | nil => rw [splitOnSep1]
  | cons d rest ih =>
      simp only [List.mem_cons, not_or] at h
      have hdc : (c == d) = false := by simp [beq_eq_false_iff_ne, Ne, h.1]
      rw [splitOnSep1, ih h.2]
      simp [isPrefixOf_cons_cons, hdc]

theorem splitOnSep1_single_step {c : Char} {s : PyStr} (h : c ∉ s) (t : PyStr) :
    splitOnSep1 [c] (s ++ c :: t) = [s, t] := by
  induction s with
  | nil =>
      rw [List.nil_append, splitOnSep1]
      simp [isPrefixOf_cons_cons]
  | cons d rest ih =>
      simp only [List.mem_cons, not_or] at h
      have hdc : (c == d) = false := by simp [beq_eq_false_iff_ne, Ne, h.1]
      rw [List.cons_append, splitOnSep1, ih h.2]
      simp [isPrefixOf_cons_cons, hdc]

theorem splitOnSep_crlf_nomem {s : PyStr} (h : '\r' ∉ s) :
    splitOnSep crlf s = [s] := by
  induction s with
  | nil => rfl
  | cons d rest ih =>
      simp only [List.mem_cons, not_or] at h
      have hdc : ('\r' == d) = false := by simp [beq_eq_false_iff_ne, Ne, h.1]
      have ih2 := ih h.2
      rw [crlf] at ih2 ⊢
      rw [splitOnSep, splitSkip,
        show splitSkip ['\r', '\n'] 0 rest = splitOnSep ['\r', '\n'] rest from rfl, ih2]
      simp [isPrefixOf_cons_cons, hdc]

theorem splitOnSep_crlf_step {s : PyStr} (h : '\r' ∉ s) (t : PyStr) :
    splitOnSep crlf (s ++ '\r' :: '\n' :: t) = s :: splitOnSep crlf t := by
  induction s with
  | nil =>
      rw [List.nil_append, crlf, splitOnSep, splitSkip,
        if_pos ⟨by simp, by simp [List.isPrefixOf]⟩]
      rfl
  | cons d rest ih =>
      simp only [List.mem_cons, not_or] at h
      have hdc : ('\r' == d) = false := by simp [beq_eq_false_iff_ne, Ne, h.1]
      have ih2 := ih h.2
      rw [crlf] at ih2 ⊢
      rw [List.cons_append, splitOnSep, splitSkip,
        show splitSkip ['\r', '\n'] 0 (rest ++ '\r' :: '\n' :: t)
          = splitOnSep ['\r', '\n'] (rest ++ '\r' :: '\n' :: t) from rfl, ih2]
      simp [isPrefixOf_cons_cons, hdc]

theorem splitOnSep_crlf_interJoin {lines : List PyStr} (hne : lines ≠ [])
    (h : ∀ l ∈ lines, '\r' ∉ l) :
    splitOnSep crlf (interJoin lines) = lines := by
  induction lines with
  | nil => exact absurd rfl hne
  | cons l rest ih =>
      cases rest with
      | nil => exact splitOnSep_crlf_nomem (h l (by simp))
      | cons l' ls =>
          rw [show interJoin (l :: l' :: ls) = l ++ '\r' :: '\n' :: interJoin (l' :: ls) from rfl]
          rw [splitOnSep_crlf_step (h l (by simp))]
          rw [ih (by simp) (fun x hx => h x (List.mem_cons_of_mem _ hx))]

theorem subIndex_cons_ne {x : Char} {xs : PyStr} {a : Char} (h : a ≠ x) (rest : PyStr) :
    subIndex (x :: xs) (a :: rest) = (subIndex (x :: xs) rest).map (· + 1) := by
  have hxa : (x == a) = false := beq_eq_false_iff_ne.mpr (Ne.symm h)
  rw [subIndex]
  simp [isPrefixOf_cons_cons, hxa]

theorem subIndex_append_shift {x : Char} {xs : PyStr} {s : PyStr} (h : x ∉ s) (t : PyStr) :
    subIndex (x :: xs) (s ++ t) = (subIndex (x :: xs) t).map (· + s.length) := by
  induction s with
  | nil =>
      rw [List.nil_append]
      cases subIndex (x :: xs) t <;> simp
  | cons a rest ih =>
      simp only [List.mem_cons, not_or] at h
      rw [List.cons_append, subIndex_cons_ne (Ne.symm h.1)]
      rw [ih h.2]
      cases subIndex (x :: xs) t with
      | none => simp
      | some v => simp; omega

theorem subIndex_crlf_boundary {s : PyStr} (h : '\r' ∉ s) (t : PyStr) :
    subIndex crlf (s ++ '\r' :: '\n' :: t) = some s.length := by
  rw [show crlf = '\r' :: ['\n'] from rfl, subIndex_append_shift h]
  rw [show subIndex ('\r' :: ['\n']) ('\r' :: '\n' :: t) = some 0 by
    rw [subIndex]; simp [List.isPrefixOf]]
  simp

theorem subIndex_crlf2_boundary {s : PyStr} (h : '\r' ∉ s) (t : PyStr) :
    subIndex crlf2 (s ++ '\r' :: '\n' :: '\r' :: '\n' :: t) = some s.length := by
  rw [show crlf2 = '\r' :: ['\n', '\r', '\n'] from rfl, subIndex_append_shift h]
  rw [show subIndex ('\r' :: ['\n', '\r', '\n']) ('\r' :: '\n' :: '\r' :: '\n' :: t) = some 0 by
    rw [subIndex]; simp [List.isPrefixOf]]
  simp

theorem subIndex_crlf2_block {lines : List PyStr}
    (h : ∀ l ∈ lines, l ≠ [] ∧ '\r' ∉ l) (body : PyStr) :
    subIndex crlf2 (interJoin lines ++ '\r' :: '\n' :: '\r' :: '\n' :: body)
      = some (interJoin lines).length := by
  induction lines with
  | nil =>
      rw [show interJoin [] = [] from rfl, List.nil_append, crlf2, subIndex]
      simp [List.isPrefixOf]
  | cons l rest ih =>
      cases rest with
      | nil =>
          rw [show interJoin [l] = l from rfl]
          exact subIndex_crlf2_boundary (h l (by simp)).2 body
      | cons l2 ls =>
          obtain ⟨hl2ne, hl2r⟩ := h l2 (by simp)
          obtain ⟨c, cs, hc⟩ := List.exists_cons_of_ne_nil hl2ne
          have hcr : c ≠ '\r' := by
            intro e
            exact hl2r (by rw [hc, e]; simp)
          have hJ : ∃ K, interJoin (l2 :: ls) = c :: K := by
            cases ls with
            | nil => exact ⟨cs, by rw [show interJoin [l2] = l2 from rfl, hc]⟩
            | cons l3 ls3 =>
                refine ⟨cs ++ '\r' :: '\n' :: interJoin (l3 :: ls3), ?_⟩
                rw [show interJoin (l2 :: l3 :: ls3)
                    = l2 ++ '\r' :: '\n' :: interJoin (l3 :: ls3) from rfl, hc]
                rfl
          obtain ⟨K, hK⟩ := hJ
          have ih2 := ih (fun x hx => h x (List.mem_cons_of_mem _ hx))
          rw [show interJoin (l :: l2 :: ls)
              = l ++ '\r' :: '\n' :: interJoin (l2 :: ls) from rfl]
          rw [List.append_assoc, List.cons_append, List.cons_append]
          rw [show crlf2 = '\r' :: ['\n', '\r', '\n'] from rfl] at ih2 ⊢
          rw [subIndex_append_shift (h l (by simp)).2]
          rw [hK] at ih2 ⊢
          rw [List.cons_append] at ih2
          rw [subIndex]
          have hpre : (('\r' :: ['\n', '\r', '\n']).isPrefixOf
              ('\r' :: '\n' :: c :: (K ++ '\r' :: '\n' :: '\r' :: '\n' :: body))) = false := by
            simp [isPrefixOf_cons_cons, beq_eq_false_iff_ne.mpr (Ne.symm hcr)]
          rw [if_neg (by simp [hpre])]
          rw [subIndex_cons_ne (show ('\n' : Char) ≠ '\r' by decide)]
          simp only [List.cons_append] at ih2 ⊢
          rw [ih2]
          simp
          omega

theorem filter_interJoin (p : Char → Bool) (hr : p '\r' = true) (hn : p '\n' = true)
    (lines : List PyStr) :
    (interJoin lines).filter p = interJoin (lines.map (fun l => l.filter p)) := by
  induction lines with
  | nil => rfl
  | cons l rest ih =>
      cases rest with
      | nil => rfl
      | cons l2 ls =>
          rw [show interJoin (l :: l2 :: ls)
              = l ++ '\r' :: '\n' :: interJoin (l2 :: ls) from rfl]
          rw [List.map_cons,
            show interJoin ((l.filter p) :: (l2 :: ls).map (fun l => l.filter p))
              = (l.filter p) ++ '\r' :: '\n' :: interJoin ((l2 :: ls).map (fun l => l.filter p))
              from by
                cases ls <;> rfl]
          rw [List.filter_append, List.filter_cons, List.filter_cons]
          simp [hr, hn, ih]

theorem headerPairs_mkLines (kvs : List (PyStr × PyStr))
    (h : ∀ kv ∈ kvs, ':' ∉ kv.1) :
    headerPairs (kvs.map mkHeaderLine) = .ok kvs := by
  induction kvs with
  | nil => rfl
  | cons kv rest ih =>
      rw [List.map_cons, show mkHeaderLine kv = kv.1 ++ ':' :: kv.2 from rfl, headerPairs]
      rw [splitOnSep1_single_step (h kv (by simp))]
      rw [ih (fun x hx => h x (List.mem_cons_of_mem _ hx))]
      rfl

theorem interJoin_cons {l : PyStr} {l2 : PyStr} {ls : List PyStr} :
    interJoin (l :: l2 :: ls) = l ++ '\r' :: '\n' :: interJoin (l2 :: ls) := rfl

theorem respHeaders_shape {sl : PyStr} {kvs : List (PyStr × PyStr)} {body : PyStr}
    (hslne : sl ≠ []) (hsl : '\r' ∉ sl) (hne : kvs ≠ [])
    (hkv : ∀ kv ∈ kvs, ':' ∉ kv.1 ∧ '\r' ∉ kv.1 ∧ '\r' ∉ kv.2) :
    respHeaders (sl ++ '\r' :: '\n' :: (interJoin (kvs.map mkHeaderLine)
        ++ '\r' :: '\n' :: '\r' :: '\n' :: body))
      = .ok (kvs.map (fun kv => (kv.1.filter (fun c => c ≠ ' '),
                                 kv.2.filter (fun c => c ≠ ' ')))) := by
  obtain ⟨kv0, kvr, rfl⟩ := List.exists_cons_of_ne_nil hne
  simp only [List.map_cons]
  have hline_mem : ∀ l ∈ mkHeaderLine kv0 :: kvr.map mkHeaderLine, l ≠ [] ∧ '\r' ∉ l := by
    intro l hl
    rw [← List.map_cons, List.mem_map] at hl
    obtain ⟨kv, hkvmem, rfl⟩ := hl
    obtain ⟨h1, h2, h3⟩ := hkv kv hkvmem
    refine ⟨by simp [mkHeaderLine], ?_⟩
    simp only [mkHeaderLine, List.mem_append, List.mem_cons, not_or]
    exact ⟨h2, by decide, h3⟩
  have hall : ∀ l ∈ sl :: mkHeaderLine kv0 :: kvr.map mkHeaderLine, l ≠ [] ∧ '\r' ∉ l := by
    intro l hl
    rcases List.mem_cons.mp hl with rfl | hl
    · exact ⟨hslne, hsl⟩
    · exact hline_mem l hl
  have hidx2 := subIndex_crlf2_block hall body
  rw [interJoin_cons, List.append_assoc] at hidx2
  simp only [List.cons_append] at hidx2
  rw [show (sl ++ '\r' :: '\n' :: interJoin (mkHeaderLine kv0 :: kvr.map mkHeaderLine)).length
      = sl.length + 2 + (interJoin (mkHeaderLine kv0 :: kvr.map mkHeaderLine)).length from by
    simp [List.length_append]
    omega] at hidx2
  simp only [respHeaders, subIndex_crlf_boundary hsl, hidx2]
  have hslice : pySlice (sl ++ '\r' :: '\n' :: (interJoin (mkHeaderLine kv0 :: kvr.map mkHeaderLine)
        ++ '\r' :: '\n' :: '\r' :: '\n' :: body))
      (sl.length + 2)
      (sl.length + 2 + (interJoin (mkHeaderLine kv0 :: kvr.map mkHeaderLine)).length)
      = interJoin (mkHeaderLine kv0 :: kvr.map mkHeaderLine) := by
    rw [pySlice]
    rw [show sl ++ '\r' :: '\n' :: (interJoin (mkHeaderLine kv0 :: kvr.map mkHeaderLine)
          ++ '\r' :: '\n' :: '\r' :: '\n' :: body)
        = (sl ++ ['\r', '\n']) ++ (interJoin (mkHeaderLine kv0 :: kvr.map mkHeaderLine)
          ++ '\r' :: '\n' :: '\r' :: '\n' :: body) from by simp [List.append_assoc]]
    rw [List.drop_left' (by simp),
      show sl.length + 2 + (interJoin (mkHeaderLine kv0 :: kvr.map mkHeaderLine)).length
          - (sl.length + 2)
        = (interJoin (mkHeaderLine kv0 :: kvr.map mkHeaderLine)).length by omega,
      List.take_left]
  rw [hslice]
  have hline_filter : ∀ kv : PyStr × PyStr,
      (mkHeaderLine kv).filter (fun c => c ≠ ' ')
        = mkHeaderLine (kv.1.filter (fun c => c ≠ ' '), kv.2.filter (fun c => c ≠ ' ')) := by
    intro kv
    simp [mkHeaderLine, List.filter_append, List.filter_cons]
  rw [filter_interJoin _ (by decide) (by decide)]
  rw [show (mkHeaderLine kv0 :: kvr.map mkHeaderLine).map (fun l => l.filter (fun c => c ≠ ' '))
      = ((kv0 :: kvr).map (fun kv => (kv.1.filter (fun c => c ≠ ' '),
          kv.2.filter (fun c => c ≠ ' ')))).map mkHeaderLine from by
    simp only [List.map_cons, List.map_map]
    rw [hline_filter kv0]
    congr 1
    refine List.map_congr_left ?_
    intro kv _
    exact hline_filter kv]
  have hfkv_mem : ∀ kv ∈ (kv0 :: kvr).map (fun kv =>
      (kv.1.filter (fun c => c ≠ ' '), kv.2.filter (fun c => c ≠ ' '))), ':' ∉ kv.1 := by
    intro kv hkvm
    rw [List.mem_map] at hkvm
    obtain ⟨kv', hkv'mem, rfl⟩ := hkvm
    intro hc
    exact (hkv kv' hkv'mem).1 (List.mem_of_mem_filter hc)
  have hfline_nocr : ∀ l ∈ ((kv0 :: kvr).map (fun kv =>
      (kv.1.filter (fun c => c ≠ ' '), kv.2.filter (fun c => c ≠ ' ')))).map mkHeaderLine,
      '\r' ∉ l := by
    intro l hl
    rw [List.mem_map] at hl
    obtain ⟨kv, hkvm, rfl⟩ := hl
    rw [List.mem_map] at hkvm
    obtain ⟨kv', hkv'mem, rfl⟩ := hkvm
    obtain ⟨h1, h2, h3⟩ := hkv kv' hkv'mem
    simp only [mkHeaderLine, List.mem_append, List.mem_cons, not_or]
    exact ⟨fun hc => h2 (List.mem_of_mem_filter hc), by decide,
      fun hc => h3 (List.mem_of_mem_filter hc)⟩
  rw [splitOnSep_crlf_interJoin (by simp) hfline_nocr]
  exact headerPairs_mkLines _ hfkv_mem

/-! ## Lemmas about decimal representations -/

theorem digitChar_isDigit {d : Nat} (h : d < 10) : (Char.ofNat (48 + d)).isDigit = true := by
  interval_cases d <;> decide

theorem digitChar_toNat {d : Nat} (h : d < 10) : (Char.ofNat (48 + d)).toNat = 48 + d := by
  interval_cases d <;> decide

theorem natReprAux_fuel (f1 : Nat) : ∀ (f2 n : Nat), n < f1 → n < f2 →
    natReprAux f1 n = natReprAux f2 n := by
  induction f1 with
  | zero => intro f2 n h1 _; omega
  | succ f ih =>
      intro f2 n h1 h2
      cases f2 with
      | zero => omega
      | succ g =>
          rw [natReprAux, natReprAux]
          split
          · rfl
          · rename_i h
            congr 1
            exact ih g (n / 10) (by omega) (by omega)

theorem natRepr_eq (n : Nat) :
    natRepr n = if n < 10 then [Char.ofNat (48 + n)]
                else natRepr (n / 10) ++ [Char.ofNat (48 + n % 10)] := by
  rw [natRepr, natReprAux]
  split
  · rfl
  · rename_i h
    congr 1
    exact natReprAux_fuel n (n / 10 + 1) (n / 10) (by omega) (by omega)

theorem natRepr_ne_nil (n : Nat) : natRepr n ≠ [] := by
  rw [natRepr_eq]
  split
  · simp
  · simp

theorem natRepr_digits (n : Nat) : ∀ c ∈ natRepr n, c.isDigit = true := by
  induction n using Nat.strong_induction_on with
  | _ n ih =>
      rw [natRepr_eq]
      split
      · intro c hc
        rw [List.mem_singleton] at hc
        subst hc
        exact digitChar_isDigit (by omega)
      · intro c hc
        rw [List.mem_append] at hc
        rcases hc with hc | hc
        · exact ih (n / 10) (Nat.div_lt_self (by omega) (by omega)) c hc
        · rw [List.mem_singleton] at hc
          subst hc
          exact digitChar_isDigit (Nat.mod_lt _ (by omega))

theorem digitsVal_append_digit (a : PyStr) (d : Char) :
    digitsVal (a ++ [d]) = (d.toNat - 48) + 10 * digitsVal a := by
  rw [digitsVal, digitsVal, List.map_append, List.reverse_append]
  simp [Nat.ofDigits_cons]

theorem digitsVal_natRepr (n : Nat) : digitsVal (natRepr n) = n := by
  induction n using Nat.strong_induction_on with
  | _ n ih =>
      rw [natRepr_eq]
      split
      · rename_i h
        rw [show [Char.ofNat (48 + n)] = ([] : PyStr) ++ [Char.ofNat (48 + n)] from rfl,
          digitsVal_append_digit, digitChar_toNat h]
        rw [show digitsVal [] = 0 from rfl]
        omega
      · rename_i h
        rw [digitsVal_append_digit, ih (n / 10) (Nat.div_lt_self (by omega) (by omega)),
          digitChar_toNat (Nat.mod_lt _ (by omega))]
        omega

theorem isDigit_ne_dash {c : Char} (h : c.isDigit = true) : ¬(c = '-') := by
  intro e
  rw [e] at h
  exact absurd h (by decide)

theorem isDigit_ne_plus {c : Char} (h : c.isDigit = true) : ¬(c = '+') := by
  intro e
  rw [e] at h
  exact absurd h (by decide)

theorem pyInt_natRepr (n : Nat) : pyInt (natRepr n) = some (n : Int) := by
  obtain ⟨c, cs, hc⟩ := List.exists_cons_of_ne_nil (natRepr_ne_nil n)
  have hcd : c.isDigit = true := natRepr_digits n c (by rw [hc]; simp)
  have hall : (c :: cs).all Char.isDigit = true := by
    rw [List.all_eq_true]
    intro x hx
    exact natRepr_digits n x (by rw [hc]; exact hx)
  rw [hc, pyInt, if_neg (isDigit_ne_dash hcd), if_neg (isDigit_ne_plus hcd), if_pos hall]
  rw [← hc, digitsVal_natRepr]

/-! ## The URL round-trip -/

theorem splitOnSep_slash_joinPath {segs : List PyStr} (hsegs : ∀ s ∈ segs, '/' ∉ s)
    {pre : PyStr} (hp : '/' ∉ pre) :
    splitOnSep ['/'] (pre ++ joinPath segs) = pre :: segs := by
  induction segs generalizing pre with
  | nil =>
      rw [show joinPath [] = [] from rfl, List.append_nil, splitOnSep_single_nomem hp]
  | cons s ss ih =>
      rw [show joinPath (s :: ss) = '/' :: (s ++ joinPath ss) from rfl]
      rw [splitOnSep_single_step hp]
      rw [ih (fun x hx => hsegs x (List.mem_cons_of_mem _ hx)) (hsegs s (by simp))]

theorem parse_url_mkUrl (host : PyStr) (pd : Option PyStr) (segs : List PyStr)
    (hslash : '/' ∉ host) (hcolon : ':' ∉ host)
    (hpd : ∀ p, pd = some p → ('/' ∉ p ∧ ':' ∉ p))
    (hsegs : ∀ s ∈ segs, '/' ∉ s) :
    parse_url (mkUrl host pd segs)
      = .ok ⟨['h', 't', 't', 'p'], host ++ portSuffix pd, host, portParsed pd,
             joinPath segs⟩ := by
  have hpre : '/' ∉ host ++ portSuffix pd := by
    rw [List.mem_append]
    rintro (hmem | hmem)
    · exact hslash hmem
    · cases pd with
      | none => simp [portSuffix] at hmem
      | some p =>
          rw [portSuffix, List.mem_cons] at hmem
          rcases hmem with e | hmem
          · exact absurd e (by decide)
          · exact (hpd p rfl).1 hmem
  have e1 : mkUrl host pd segs
      = ['h', 't', 't', 'p', ':'] ++ '/' :: (([] : PyStr) ++ '/' ::
          ((host ++ portSuffix pd) ++ joinPath segs)) := by
    rw [mkUrl.eq_def]
    simp [List.append_assoc]
  have hsplit : splitOnSep ['/'] (mkUrl host pd segs)
      = ['h', 't', 't', 'p', ':'] :: ([] : PyStr) :: (host ++ portSuffix pd) :: segs := by
    rw [e1, splitOnSep_single_step (by decide), splitOnSep_single_step (by decide),
      splitOnSep_slash_joinPath hsegs hpre]
  have hpref : (['h', 't', 't', 'p'] : PyStr).isPrefixOf (mkUrl host pd segs) = true := by
    rw [mkUrl.eq_def]
    rfl
  rw [parse_url, hpref, if_neg (by simp), hsplit]
  cases pd with
  | none =>
      have hcont : strContainsChar (host ++ portSuffix none) ':' = false := by
        simp only [portSuffix, List.append_nil, strContainsChar]
        rw [List.any_eq_false]
        intro x hx
        simp only [decide_eq_true_eq]
        intro e
        rw [e] at hx
        exact hcolon hx
      simp only [hcont]
      simp [portSuffix, portParsed, List.append_nil]
  | some p =>
      have hcont : strContainsChar (host ++ portSuffix (some p)) ':' = true := by
        simp [portSuffix, strContainsChar, List.any_eq_true]
      have hsplitc : splitOnSep [':'] (host ++ portSuffix (some p)) = [host, p] := by
        rw [portSuffix, splitOnSep_single_step hcolon, splitOnSep_single_nomem (hpd p rfl).2]
      simp only [hcont, hsplitc]
      simp [portSuffix, portParsed]

/-! ## Byte lengths and the ASCII-only shape of `json.dumps` output -/

theorem utf8Size_of_ascii {c : Char} (h : c.toNat < 128) : c.utf8Size = 1 := by
  unfold Char.utf8Size
  have h' : c.val.toNat < 128 := h
  have hv : c.val ≤ (0x7F : UInt32) := by
    change c.val.toNat ≤ 127
    omega
  simp [hv]

theorem utf8Len_of_ascii {s : PyStr} (h : ∀ c ∈ s, c.toNat < 128) :
    utf8Len s = s.length := by
  induction s with
  | nil => rfl
  | cons c rest ih =>
      rw [utf8Len, List.map_cons, List.sum_cons, utf8Size_of_ascii (h c (by simp)),
        show (rest.map Char.utf8Size).sum = utf8Len rest from rfl,
        ih (fun x hx => h x (List.mem_cons_of_mem _ hx))]
      simp [Nat.add_comm]

theorem isDigit_bounds {c : Char} (h : c.isDigit = true) :
    48 ≤ c.toNat ∧ c.toNat ≤ 57 := by
  rw [Char.isDigit] at h
  simp at h
  exact h

theorem isDigit_toNat_lt {c : Char} (h : c.isDigit = true) : c.toNat < 128 := by
  have := isDigit_bounds h
  omega

theorem isDigit_ne_of_toNat {c d : Char} (h : c.isDigit = true)
    (hd : d.toNat < 48 ∨ 57 < d.toNat) : c ≠ d := by
  intro e
  subst e
  have := isDigit_bounds h
  omega

theorem natRepr_not_mem {n : Nat} {d : Char} (hd : d.toNat < 48 ∨ 57 < d.toNat) :
    d ∉ natRepr n := by
  intro hmem
  have hdig := natRepr_digits n d hmem
  exact isDigit_ne_of_toNat hdig hd rfl

theorem hexDig_ascii {m : Nat} (h : m < 16) : (hexDig m).toNat < 128 := by
  interval_cases m <;> decide

theorem uEsc_ascii (n : Nat) : ∀ c ∈ uEsc n, c.toNat < 128 := by
  intro c hc
  rw [uEsc] at hc
  simp only [List.mem_cons, List.not_mem_nil, or_false] at hc
  rcases hc with rfl | rfl | rfl | rfl | rfl | rfl
  · decide
  · decide
  all_goals exact hexDig_ascii (Nat.mod_lt _ (by omega))

theorem escChar_ascii (c : Char) : ∀ d ∈ escChar c, d.toNat < 128 := by
  intro d hd
  rw [escChar] at hd
  split at hd
  · simp only [List.mem_cons, List.not_mem_nil, or_false] at hd
    rcases hd with rfl | rfl <;> decide
  · split at hd
    · simp only [List.mem_cons, List.not_mem_nil, or_false] at hd
      rcases hd with rfl | rfl <;> decide
    · split at hd
      · simp only [List.mem_cons, List.not_mem_nil, or_false] at hd
        rcases hd with rfl | rfl <;> decide
      · split at hd
        · simp only [List.mem_cons, List.not_mem_nil, or_false] at hd
          rcases hd with rfl | rfl <;> decide
        · split at hd
          · simp only [List.mem_cons, List.not_mem_nil, or_false] at hd
            rcases hd with rfl | rfl <;> decide
          · split at hd
            · simp only [List.mem_cons, List.not_mem_nil, or_false] at hd
              rcases hd with rfl | rfl <;> decide
            · split at hd
              · simp only [List.mem_cons, List.not_mem_nil, or_false] at hd
                rcases hd with rfl | rfl <;> decide
              · split at hd
                · rename_i hrange
                  simp only [List.mem_singleton] at hd
                  subst hd
                  omega
                · split at hd
                  · exact uEsc_ascii _ d hd
                  · rw [List.mem_append] at hd
                    rcases hd with hd | hd
                    · exact uEsc_ascii _ d hd
                    · exact uEsc_ascii _ d hd

theorem intRepr_ascii (n : Int) : ∀ c ∈ intRepr n, c.toNat < 128 := by
  intro c hc
  rw [intRepr] at hc
  split at hc
  · rw [List.mem_cons] at hc
    rcases hc with rfl | hc
    · decide
    · exact isDigit_toNat_lt (natRepr_digits _ c hc)
  · exact isDigit_toNat_lt (natRepr_digits _ c hc)

theorem encStr_ascii (s : PyStr) : ∀ c ∈ encStr s, c.toNat < 128 := by
  intro c hc
  rw [encStr] at hc
  simp only [List.mem_cons, List.mem_append, List.mem_singleton, List.mem_flatten,
    List.mem_map, List.not_mem_nil, or_false] at hc
  rcases hc with (rfl | ⟨l, ⟨d, _, rfl⟩, hcl⟩) | rfl
  · decide
  · exact escChar_ascii d c hcl
  · decide

theorem encVal_ascii (v : JVal) : ∀ c ∈ encVal v, c.toNat < 128 := by
  intro c hc
  cases v with
  | jnull => rw [encVal] at hc; simp at hc; rcases hc with rfl | rfl | rfl | rfl <;> decide
  | jbool b =>
      cases b with
      | true => rw [encVal] at hc; simp at hc; rcases hc with rfl | rfl | rfl | rfl <;> decide
      | false =>
          rw [encVal] at hc; simp at hc; rcases hc with rfl | rfl | rfl | rfl | rfl <;> decide
  | jint n => exact intRepr_ascii n c hc
  | jstr s => exact encStr_ascii s c hc

theorem joinItems_ascii (items : List (PyStr × JVal)) :
    ∀ c ∈ joinItems items, c.toNat < 128 := by
  induction items with
  | nil => intro c hc; rw [joinItems] at hc; simp at hc
  | cons kv rest ih =>
      cases rest with
      | nil =>
          intro c hc
          rw [joinItems] at hc
          simp only [List.mem_append, List.mem_cons] at hc
          rcases hc with hc | rfl | rfl | hc
          · exact encStr_ascii _ c hc
          · decide
          · decide
          · exact encVal_ascii _ c hc
      | cons kv2 rest2 =>
          intro c hc
          rw [show joinItems (kv :: kv2 :: rest2)
              = encStr kv.1 ++ ':' :: ' ' :: encVal kv.2
                ++ ',' :: ' ' :: joinItems (kv2 :: rest2) from rfl] at hc
          simp only [List.mem_append, List.mem_cons] at hc
          rcases hc with (hc | rfl | rfl | hc) | rfl | rfl | hc
          · exact encStr_ascii _ c hc
          · decide
          · decide
          · exact encVal_ascii _ c hc
          · decide
          · decide
          · exact ih c hc

theorem dumps_ascii (js : List (PyStr × JVal)) : ∀ c ∈ dumps js, c.toNat < 128 := by
  intro c hc
  rw [dumps] at hc
  simp only [List.mem_cons, List.mem_append, List.mem_singleton, List.not_mem_nil,
    or_false] at hc
  rcases hc with (rfl | hc) | rfl
  · decide
  · exact joinItems_ascii js c hc
  · decide

/-- The central byte-count fact for `Content-Length`: the serialized JSON
text is pure ASCII (because `ensure_ascii=True` escapes everything else),
so its code-point count — what Python `len` returns — equals its UTF-8
byte length. -/
theorem dumps_len_eq_utf8Len (js : List (PyStr × JVal)) :
    (dumps js).length = utf8Len (dumps js) :=
  (utf8Len_of_ascii (dumps_ascii js)).symm

/-! ## The claims -/

/-- C8: a response buffer without the `"\r\n\r\n"` boundary makes both the
body accessor (`HTTPResponse.text`) and the header accessor
(`HTTPResponse.headers`) fail with the `ValueError` raised by `str.index`
(the spec's `ParseError`); no body and no header mapping is produced. -/
theorem c8_missing_boundary_is_error (raw : PyStr) (h : subIndex crlf2 raw = none) :
    respText raw = .error .valueError ∧ respHeaders raw = .error .valueError := by
  refine ⟨by rw [respText, h], ?_⟩
  rw [respHeaders]
  cases hc : subIndex crlf raw with
  | none => rfl
  | some hs => rw [h]

/-- Witness for C8 at the boundary-free buffer `"HTTP/1.1 200 OK"`. -/
theorem c8_missing_boundary_is_error_witness :
    subIndex crlf2 noBoundaryBuf = none
      ∧ (respText noBoundaryBuf = .error .valueError
         ∧ respHeaders noBoundaryBuf = .error .valueError) :=
  ⟨by decide, c8_missing_boundary_is_error noBoundaryBuf (by decide)⟩

/-- C9: when the status line (the text before the first CRLF) splits into
fewer than three whitespace-separated tokens, `status_code` fails with the
`IndexError` raised by `status_line_raw[2]` — even though the numeric
status-code token is present. -/
theorem c9_short_status_line_is_error (raw : PyStr) (i : Nat)
    (hidx : subIndex crlf raw = some i)
    (hlen : (splitWs (raw.take i)).length < 3) :
    status_code raw = .error .indexError := by
  have hsl : statusLineOf raw = .error .indexError := by
    simp only [statusLineOf, hidx]
    rcases hsp : splitWs (raw.take i) with _ | ⟨t0, rest0⟩
    · rfl
    rcases rest0 with _ | ⟨t1, rest1⟩
    · rfl
    rcases rest1 with _ | ⟨t2, rest2⟩
    · rfl
    · rw [hsp] at hlen
      exact absurd hlen (by simp only [List.length_cons]; omega)
  rw [status_code, hsl]

/-- Witness for C9 at `"HTTP/1.1 200\r\n\r\nx"` (no reason phrase). -/
theorem c9_short_status_line_is_error_witness :
    subIndex crlf shortStatusBuf = some 12
      ∧ (splitWs (shortStatusBuf.take 12)).length < 3
      ∧ status_code shortStatusBuf = .error .indexError :=
  ⟨by decide, by decide,
    c9_short_status_line_is_error shortStatusBuf 12 (by decide) (by decide)⟩

/-- C10: a response whose status line is immediately followed by the blank
line (an empty header block) makes the header accessor fail with an
`IndexError` — the block slices to `""`, `"".split("\r\n")` is `[""]`, and
`"".split(":", 1)[1]` raises — instead of returning an empty mapping. -/
theorem c10_empty_header_block_is_error (sl body : PyStr) (h : '\r' ∉ sl) :
    respHeaders (sl ++ '\r' :: '\n' :: '\r' :: '\n' :: body) = .error .indexError := by
  have h1 := subIndex_crlf_boundary h ('\r' :: '\n' :: body)
  have h2 := subIndex_crlf2_boundary h body
  have hslice : pySlice (sl ++ '\r' :: '\n' :: '\r' :: '\n' :: body)
      (sl.length + 2) sl.length = [] := by
    rw [pySlice, show sl.length - (sl.length + 2) = 0 from by omega, List.take_zero]
  simp only [respHeaders, h1, h2, hslice]
  rfl

/-- Witness for C10 at `"HTTP/1.1 200 OK\r\n\r\nHello"`. -/
theorem c10_empty_header_block_is_error_witness :
    ('\r' ∉ ("HTTP/1.1 200 OK".toList : PyStr))
      ∧ respHeaders (("HTTP/1.1 200 OK".toList : PyStr)
          ++ '\r' :: '\n' :: '\r' :: '\n' :: ("Hello".toList : PyStr))
        = .error .indexError :=
  ⟨by decide, c10_empty_header_block_is_error _ _ (by decide)⟩

/-- C3 counterexample: parsing `http://example.com` (empty segment list
after the authority) succeeds with the empty path `""`, not `"/"`. -/
theorem c3_counterexample :
    Except.map ParsedUrl.path (parse_url bareUrl) = .ok []
      ∧ Except.map ParsedUrl.path (parse_url bareUrl) ≠ .ok ['/'] :=
  ⟨by decide, by decide⟩

/-- C3 amended: for `http://host` with no segments after the authority,
`_parse_url` succeeds and the parsed path is the empty string (the join of
zero segments), not `"/"`. -/
theorem c3_amended_empty_path (host : PyStr) (h1 : '/' ∉ host) (h2 : ':' ∉ host) :
    parse_url (mkUrl host none [])
      = .ok ⟨['h', 't', 't', 'p'], host, host, .nat 80, []⟩ := by
  have h := parse_url_mkUrl host none [] h1 h2 (fun p hp => by cases hp)
    (fun s hs => by cases hs)
  simpa [portSuffix, portParsed, joinPath] using h

/-- Witness for the amended C3 at host `example.com`. -/
theorem c3_amended_empty_path_witness :
    ('/' ∉ ("example.com".toList : PyStr)) ∧ (':' ∉ ("example.com".toList : PyStr))
      ∧ parse_url (mkUrl ("example.com".toList) none [])
          = .ok ⟨['h', 't', 't', 'p'], "example.com".toList, "example.com".toList,
                 .nat 80, []⟩ :=
  ⟨by decide, by decide, c3_amended_empty_path _ (by decide) (by decide)⟩

/-- C4 counterexample: `httpx://h/p` has leading token `httpx` — not a
recognized http scheme — yet `_parse_url` accepts it, because the code
checks only `url.startswith("http")`. -/
theorem c4_counterexample :
    parse_url httpxUrl = .ok ⟨"httpx".toList, ['h'], ['h'], .nat 80, ['/', 'p']⟩
      ∧ parse_url httpxUrl ≠ .error .valueError :=
  ⟨by decide, by decide⟩

/-- C4 amended: `_parse_url` raises `ValueError` ("Invalid URL") for every
input that does not begin with the four characters `http`; the leading
token is not otherwise validated, so any string starting with `http` passes
the scheme check. -/
theorem c4_amended_scheme_check (u : PyStr)
    (h : (['h', 't', 't', 'p'] : PyStr).isPrefixOf u = false) :
    parse_url u = .error .valueError := by
  rw [parse_url, h, if_pos rfl]

/-- Witness for the amended C4 at `ftp://x`. -/
theorem c4_amended_scheme_check_witness :
    ((['h', 't', 't', 'p'] : PyStr).isPrefixOf ("ftp://x".toList) = false)
      ∧ parse_url ("ftp://x".toList) = .error .valueError :=
  ⟨by decide, c4_amended_scheme_check _ (by decide)⟩

/-- C2 counterexample: when the receive loop fails (e.g. a socket timeout
in `recv`), `get`/`post` exits without any `socket.close()` call — the
connection is not closed exactly once on that exit path. -/
theorem c2_counterexample :
    runCall getReq true true false true = (.recvFail, 0)
      ∧ (runCall getReq true true false true).2 ≠ 1 :=
  ⟨by decide, by decide⟩

/-- C2 amended: `socket.close()` runs exactly once precisely when URL
parsing, connect, send and the receive loop all succeed (including when
UTF-8 decoding fails afterwards, since line 285's `close` precedes line
287's `.decode`); on any earlier failure it never runs and the socket is
leaked. -/
theorem c2_amended_close_count (r : Req) (c s v d : Bool) :
    (runCall r c s v d).2 = if parseOk r.url && c && s && v then 1 else 0 := by
  rcases hurl : parse_url r.url with e | pu
  · cases e <;> simp [runCall, parseOk, hurl]
  · simp only [runCall, parseOk, hurl]
    cases c <;> cases s <;> cases v <;> cases d <;> simp

/-- C1 counterexample: with target URL `http://h:9000/p` the emitted `Host`
header line is `Host: h:9000` — the full authority, port included — not the
bare host `h`, because `_parse_http_headers` reads `netloc[0]`
(`netloc_abs`) instead of `netloc[1]` (`netloc_host`). -/
theorem c1_counterexample :
    parse_http_headers portReq = .ok ("Host: h:9000\r\n".toList)
      ∧ parse_http_headers portReq ≠ .ok ("Host: h\r\n".toList) :=
  ⟨by decide, by decide⟩

/-- C1 amended: for every target URL carrying an explicit port, the `Host`
header value is the full authority `host:port` — the port is included
(followed by the caller headers unchanged). -/
theorem c1_amended_host_includes_port (host pd : PyStr) (segs : List PyStr)
    (hdrs : List (PyStr × PyStr))
    (hh1 : '/' ∉ host) (hh2 : ':' ∉ host)
    (hp1 : '/' ∉ pd) (hp2 : ':' ∉ pd)
    (hsegs : ∀ s ∈ segs, '/' ∉ s) :
    parse_http_headers ⟨HTTP_GET, mkUrl host (some pd) segs, [], [], hdrs⟩
      = .ok ((['H', 'o', 's', 't', ':', ' '] ++ (host ++ ':' :: pd) ++ crlf)
             ++ joinHeaders hdrs) := by
  have hurl := parse_url_mkUrl host (some pd) segs hh1 hh2
    (fun p hp => by cases hp; exact ⟨hp1, hp2⟩) hsegs
  simp only [parse_http_headers, hurl]
  rw [if_neg (by decide)]
  simp [portSuffix, List.append_assoc]

/-- Witness for the amended C1 at `http://h:9000/p`. -/
theorem c1_amended_host_includes_port_witness :
    ('/' ∉ (['h'] : PyStr)) ∧ (':' ∉ (['h'] : PyStr))
      ∧ ('/' ∉ ("9000".toList : PyStr)) ∧ (':' ∉ ("9000".toList : PyStr))
      ∧ (∀ s ∈ ([['p']] : List PyStr), '/' ∉ s)
      ∧ parse_http_headers ⟨HTTP_GET, mkUrl ['h'] (some ("9000".toList)) [['p']], [], [], []⟩
          = .ok ((['H', 'o', 's', 't', ':', ' '] ++ (['h'] ++ ':' :: "9000".toList) ++ crlf)
                 ++ joinHeaders []) :=
  ⟨by decide, by decide, by decide, by decide, by decide,
    c1_amended_host_includes_port ['h'] ("9000".toList) [['p']] []
      (by decide) (by decide) (by decide) (by decide) (by decide)⟩

/-- C6: round-trip of absolute URLs `http://host[:port]/seg1/...`: the
parser recovers the host exactly, the path as the segments rejoined with a
leading `/` before each (`joinPath`), and the port — stored as the digit
string when explicit and as the integer `80` when omitted — whose `int()`
conversion (as `__init__` performs at line 148) equals the explicit value,
or `80` when omitted. -/
theorem c6_url_roundtrip (host : PyStr) (pOpt : Option Nat) (segs : List PyStr)
    (hh1 : '/' ∉ host) (hh2 : ':' ∉ host)
    (hsegs : ∀ s ∈ segs, '/' ∉ s) :
    parse_url (mkUrl host (pOpt.map natRepr) segs)
      = .ok ⟨['h', 't', 't', 'p'], host ++ portSuffix (pOpt.map natRepr), host,
             portParsed (pOpt.map natRepr), joinPath segs⟩
    ∧ intOfPort (portParsed (pOpt.map natRepr)) = some ((portValue pOpt : Nat) : Int) := by
  constructor
  · refine parse_url_mkUrl host (pOpt.map natRepr) segs hh1 hh2 ?_ hsegs
    intro p hp
    cases pOpt with
    | none => cases hp
    | some n =>
        simp only [Option.map_some'] at hp
        cases hp
        constructor
        · exact natRepr_not_mem (Or.inl (by decide))
        · exact natRepr_not_mem (Or.inr (by decide))
  · cases pOpt with
    | none => rfl
    | some n =>
        simp only [Option.map_some', portParsed, intOfPort, portValue]
        rw [pyInt_natRepr]

/-- Witness for C6 at `http://10.0.0.1:9000/` (explicit port, one empty
segment from the trailing slash). -/
theorem c6_url_roundtrip_witness :
    ('/' ∉ ("10.0.0.1".toList : PyStr)) ∧ (':' ∉ ("10.0.0.1".toList : PyStr))
      ∧ (∀ s ∈ ([[]] : List PyStr), '/' ∉ s)
      ∧ (parse_url (mkUrl ("10.0.0.1".toList) ((some 9000).map natRepr) [[]])
          = .ok ⟨['h', 't', 't', 'p'],
                 "10.0.0.1".toList ++ portSuffix ((some 9000).map natRepr),
                 "10.0.0.1".toList, portParsed ((some 9000).map natRepr), joinPath [[]]⟩
         ∧ intOfPort (portParsed ((some 9000).map natRepr))
             = some ((portValue (some 9000) : Nat) : Int)) :=
  ⟨by decide, by decide, by decide,
    c6_url_roundtrip ("10.0.0.1".toList) (some 9000) [[]] (by decide) (by decide) (by decide)⟩

/-- C7 counterexample: in the response
`"HTTP/1.1 200 OK\r\nA: b\tc\r\n\r\n"` the parsed header value still holds
the tab — a whitespace character — so not all whitespace is stripped from
the value; only spaces are (`.replace(" ", "")`). -/
theorem c7_counterexample :
    respHeaders tabBuf = .ok [(['A'], ['b', '\t', 'c'])]
      ∧ ('\t' ∈ (['b', '\t', 'c'] : PyStr) ∧ isPySpace '\t' = true) :=
  ⟨by decide, by decide, by decide⟩

/-- C7 amended: in a well-formed response whose header lines have the shape
`key:rest` (first `:` after the key), each line is split on its first `":"`
and every space character (U+0020) — including interior spaces in the
value — is removed from both key and value; other whitespace such as tab is
preserved. -/
theorem c7_amended_header_split (sl : PyStr) (kvs : List (PyStr × PyStr)) (body : PyStr)
    (hslne : sl ≠ []) (hsl : '\r' ∉ sl) (hne : kvs ≠ [])
    (hkv : ∀ kv ∈ kvs, ':' ∉ kv.1 ∧ '\r' ∉ kv.1 ∧ '\r' ∉ kv.2) :
    respHeaders (sl ++ '\r' :: '\n' :: (interJoin (kvs.map mkHeaderLine)
        ++ '\r' :: '\n' :: '\r' :: '\n' :: body))
      = .ok (kvs.map (fun kv => (kv.1.filter (fun c => c ≠ ' '),
                                 kv.2.filter (fun c => c ≠ ' ')))) :=
  respHeaders_shape hslne hsl hne hkv

/-- Witness for the amended C7 at the spec's example response
`"HTTP/1.1 200 OK\r\nContent-Type: text/plain\r\n\r\nHello"`. -/
theorem c7_amended_header_split_witness :
    (("HTTP/1.1 200 OK".toList : PyStr) ≠ [])
      ∧ ('\r' ∉ ("HTTP/1.1 200 OK".toList : PyStr))
      ∧ (([("Content-Type".toList, ' ' :: "text/plain".toList)] : List (PyStr × PyStr)) ≠ [])
      ∧ (∀ kv ∈ ([("Content-Type".toList, ' ' :: "text/plain".toList)] : List (PyStr × PyStr)),
          ':' ∉ kv.1 ∧ '\r' ∉ kv.1 ∧ '\r' ∉ kv.2)
      ∧ respHeaders ("HTTP/1.1 200 OK".toList ++ '\r' :: '\n' ::
            (interJoin ([("Content-Type".toList, ' ' :: "text/plain".toList)].map mkHeaderLine)
              ++ '\r' :: '\n' :: '\r' :: '\n' :: "Hello".toList))
          = .ok [("Content-Type".toList, "text/plain".toList)] :=
  ⟨by decide, by decide, by decide, by decide,
    c7_amended_header_split ("HTTP/1.1 200 OK".toList)
      [("Content-Type".toList, ' ' :: "text/plain".toList)] ("Hello".toList)
      (by decide) (by decide) (by decide) (by decide)⟩

theorem joinPath_no_cr {segs : List PyStr} (h : ∀ s ∈ segs, '\r' ∉ s) :
    '\r' ∉ joinPath segs := by
  intro hmem
  rw [joinPath, List.mem_flatten] at hmem
  obtain ⟨l, hl, hcl⟩ := hmem
  rw [List.mem_map] at hl
  obtain ⟨sg, hsg, rfl⟩ := hl
  rw [List.mem_cons] at hcl
  rcases hcl with e | hcl
  · exact absurd e (by decide)
  · exact h sg hsg hcl

theorem respText_of_shape (A B1 B2 body : PyStr)
    (hA : A ≠ [] ∧ '\r' ∉ A) (hB1 : B1 ≠ [] ∧ '\r' ∉ B1) (hB2 : B2 ≠ [] ∧ '\r' ∉ B2) :
    respText (A ++ '\r' :: '\n' :: (B1 ++ '\r' :: '\n'
        :: (B2 ++ '\r' :: '\n' :: '\r' :: '\n' :: body))) = .ok body := by
  have hall : ∀ l ∈ [A, B1, B2], l ≠ [] ∧ '\r' ∉ l := by
    intro l hl
    simp only [List.mem_cons, List.not_mem_nil, or_false] at hl
    rcases hl with rfl | rfl | rfl
    exacts [hA, hB1, hB2]
  have hidx := subIndex_crlf2_block hall body
  have hshape : interJoin [A, B1, B2] ++ '\r' :: '\n' :: '\r' :: '\n' :: body
      = A ++ '\r' :: '\n' :: (B1 ++ '\r' :: '\n'
          :: (B2 ++ '\r' :: '\n' :: '\r' :: '\n' :: body)) := by
    rw [interJoin_cons, interJoin_cons, show interJoin [B2] = B2 from rfl]
    simp [List.append_assoc]
  have hdrop : List.drop ((interJoin [A, B1, B2]).length + 4)
      (interJoin [A, B1, B2] ++ '\r' :: '\n' :: '\r' :: '\n' :: body) = body := by
    rw [show interJoin [A, B1, B2] ++ '\r' :: '\n' :: '\r' :: '\n' :: body
        = (interJoin [A, B1, B2] ++ ['\r', '\n', '\r', '\n']) ++ body from by
          simp [List.append_assoc]]
    rw [List.drop_left' (by simp [List.length_append])]
  rw [← hshape]
  simp only [respText, hidx, hdrop]

/-- C5: for a POST request with a non-empty JSON mapping, the
`Content-Length` value the builder emits (`content_length` under the
`json_body` flag) equals the UTF-8 byte length of the serialized JSON body
(`utf8Len`, not merely a code-point count — the two coincide because
`ensure_ascii` escaping keeps the serialization pure ASCII), and the body
of the emitted request — the text after the first `"\r\n\r\n"`, exactly as
a receiver would frame it — is that serialization byte for byte. -/
theorem c5_post_json_content_length (host : PyStr) (segs : List PyStr)
    (js : List (PyStr × JVal)) (hjs : js ≠ [])
    (hh1 : '/' ∉ host) (hh2 : ':' ∉ host) (hh3 : '\r' ∉ host)
    (hsegs : ∀ s ∈ segs, '/' ∉ s ∧ '\r' ∉ s) :
    content_length ⟨HTTP_POST, mkUrl host none segs, [], js, []⟩
        (json_body ⟨HTTP_POST, mkUrl host none segs, [], js, []⟩)
      = utf8Len (parse_http_json ⟨HTTP_POST, mkUrl host none segs, [], js, []⟩)
    ∧ (construct_http_request ⟨HTTP_POST, mkUrl host none segs, [], js, []⟩ >>= respText)
      = .ok (parse_http_json ⟨HTTP_POST, mkUrl host none segs, [], js, []⟩) := by
  have hjb : json_body ⟨HTTP_POST, mkUrl host none segs, [], js, []⟩ = true := by
    simp [json_body, hjs]
  have hcl : content_length ⟨HTTP_POST, mkUrl host none segs, [], js, []⟩
      (json_body ⟨HTTP_POST, mkUrl host none segs, [], js, []⟩) = (dumps js).length := by
    rw [hjb, content_length, if_neg (by simp)]
    rfl
  refine ⟨by rw [hcl]; exact dumps_len_eq_utf8Len js, ?_⟩
  have hurl := parse_url_mkUrl host none segs hh1 hh2 (fun p hp => by cases hp)
    (fun sg hs => (hsegs sg hs).1)
  have hreq : construct_http_request ⟨HTTP_POST, mkUrl host none segs, [], js, []⟩
      = .ok ((HTTP_POST ++ ' ' :: joinPath segs ++ ' ' :: HTTP_VERSION)
          ++ '\r' :: '\n' :: ((['H', 'o', 's', 't', ':', ' '] ++ host)
          ++ '\r' :: '\n' :: ((['C', 'o', 'n', 't', 'e', 'n', 't', '-',
                'L', 'e', 'n', 'g', 't', 'h', ':', ' '] ++ natRepr (dumps js).length)
          ++ '\r' :: '\n' :: '\r' :: '\n' :: dumps js))) := by
    simp only [construct_http_request, parse_http_headers, hurl, hcl]
    rw [if_neg hjs]
    simp [portSuffix, joinHeaders, parse_http_json, HTTP_POST, HTTP_GET, HTTP_VERSION,
      crlf, List.append_assoc]
  rw [hreq, show ((Except.ok ((HTTP_POST ++ ' ' :: joinPath segs ++ ' ' :: HTTP_VERSION)
          ++ '\r' :: '\n' :: ((['H', 'o', 's', 't', ':', ' '] ++ host)
          ++ '\r' :: '\n' :: ((['C', 'o', 'n', 't', 'e', 'n', 't', '-',
                'L', 'e', 'n', 'g', 't', 'h', ':', ' '] ++ natRepr (dumps js).length)
          ++ '\r' :: '\n' :: '\r' :: '\n' :: dumps js))) : Except PyErr PyStr)
        >>= respText)
      = respText ((HTTP_POST ++ ' ' :: joinPath segs ++ ' ' :: HTTP_VERSION)
          ++ '\r' :: '\n' :: ((['H', 'o', 's', 't', ':', ' '] ++ host)
          ++ '\r' :: '\n' :: ((['C', 'o', 'n', 't', 'e', 'n', 't', '-',
                'L', 'e', 'n', 'g', 't', 'h', ':', ' '] ++ natRepr (dumps js).length)
          ++ '\r' :: '\n' :: '\r' :: '\n' :: dumps js))) from rfl]
  refine respText_of_shape _ _ _ _ ⟨by simp [HTTP_POST], ?_⟩ ⟨by simp, ?_⟩ ⟨by simp, ?_⟩
  · intro hmem
    simp only [List.mem_append, List.mem_cons] at hmem
    rcases hmem with (hm | hm | hm) | hm | hm
    · exact absurd hm (by decide)
    · exact absurd hm (by decide)
    · exact joinPath_no_cr (fun sg hs => (hsegs sg hs).2) hm
    · exact absurd hm (by decide)
    · exact absurd hm (by decide)
  · intro hmem
    simp only [List.mem_append] at hmem
    rcases hmem with hm | hm
    · exact absurd hm (by decide)
    · exact hh3 hm
  · intro hmem
    simp only [List.mem_append] at hmem
    rcases hmem with hm | hm
    · exact absurd hm (by decide)
    · exact natRepr_not_mem (Or.inl (by decide)) hm

/-- Witness for C5: a POST of `{"x": 1}` to `http://h/p`. -/
theorem c5_post_json_content_length_witness :
    (([("x".toList, JVal.jint 1)] : List (PyStr × JVal)) ≠ [])
      ∧ ('/' ∉ (['h'] : PyStr)) ∧ (':' ∉ (['h'] : PyStr)) ∧ ('\r' ∉ (['h'] : PyStr))
      ∧ (∀ sg ∈ ([['p']] : List PyStr), '/' ∉ sg ∧ '\r' ∉ sg)
      ∧ (content_length ⟨HTTP_POST, mkUrl ['h'] none [['p']], [],
            [("x".toList, JVal.jint 1)], []⟩
            (json_body ⟨HTTP_POST, mkUrl ['h'] none [['p']], [],
              [("x".toList, JVal.jint 1)], []⟩)
          = utf8Len (parse_http_json ⟨HTTP_POST, mkUrl ['h'] none [['p']], [],
              [("x".toList, JVal.jint 1)], []⟩)
        ∧ (construct_http_request ⟨HTTP_POST, mkUrl ['h'] none [['p']], [],
              [("x".toList, JVal.jint 1)], []⟩ >>= respText)
          = .ok (parse_http_json ⟨HTTP_POST, mkUrl ['h'] none [['p']], [],
              [("x".toList, JVal.jint 1)], []⟩)) :=
  ⟨by decide, by decide, by decide, by decide, by decide,
    c5_post_json_content_length ['h'] [['p']] [("x".toList, JVal.jint 1)]
      (by decide) (by decide) (by decide) (by decide) (by decide)⟩

end Esp
